import Mathlib

/-!
ComTestLibrary: the generated interface header `definitions.h`.

`definitions.h` is a header of declarations: an interface `IComTest` (given
twice, as a C++ abstract class and as a C structure of function pointers), the
`COBJMACROS` call helpers, and the identifier constants of the library
`ComTestLibrary`.  The embedding below transcribes those declarations as data,
keeps the conditional compilation that selects between them as a function of
the preprocessor switches, and states the properties of the declarations over
that data.  The helper macros are read under the preprocessor's macro
replacement: arguments completely replaced first, parameters substituted, the
result rescanned.  The forward declarations (lines 46-64) and the `BSTR_User*`
prototypes (lines 230-233) take no part in any property below and are not
transcribed.
-/

namespace ComTestLibrary

/-! ## Declarations as data -/

/-- A C type as it is written in the header: a named type or a pointer to a type. -/
inductive CType where
  | named (name : String)
  | ptr (target : CType)
  deriving DecidableEq, Repr

/-- One parameter of a method: the attributes of the comment in front of it
(`/* [retval][out] */` is `["retval", "out"]`), the annotation word between the
comment and the type when there is one (`_In_`, `_Out_opt_`, `_COM_Outptr_`),
the type and the name. -/
structure Param where
  attrs : List String
  sal : Option String
  type : CType
  name : String
  deriving DecidableEq, Repr

/-- One method declaration: the attributes of the comment in front of it, the
result type, the calling convention word, the name and the parameters in the
order written. -/
structure Method where
  attrs : List String
  result : CType
  callconv : String
  name : String
  params : List Param
  deriving DecidableEq, Repr

/-- The C++ form of an interface: `MIDL_INTERFACE("uuid") name : public base`
with its pure virtual methods. -/
structure CppInterface where
  uuid : String
  name : String
  base : String
  methods : List Method
  deriving DecidableEq, Repr

/-- The C form of an interface: `typedef struct name { slots } name;`, each slot
a pointer to a function. -/
structure CVtbl where
  name : String
  slots : List Method
  deriving DecidableEq, Repr

/-- A preprocessing token: an identifier, a punctuator or a number. -/
inductive Tok where
  | ident (name : String)
  | punct (text : String)
  | number (text : String)
  deriving DecidableEq, Repr

/-- A function-like macro: `#define name(params) body`. -/
structure MacroDef where
  name : String
  params : List String
  body : List Tok
  deriving DecidableEq, Repr

/-- A top-level declaration of the header. -/
inductive Decl where
  /-- The line `EXTERN_C const type name;`. -/
  | externConst (type : String) (name : String)
  /-- The C++ interface. -/
  | cppInterface (i : CppInterface)
  /-- The C structure of function pointers. -/
  | cVtbl (v : CVtbl)
  /-- The line `interface name { CONST_VTBL struct vtbl *field; };`. -/
  | cInterface (name : String) (vtbl : String) (field : String)
  /-- A `#define` of a function-like macro. -/
  | define (m : MacroDef)
  /-- The line `class DECLSPEC_UUID("uuid") name;`. -/
  | uuidClass (uuid : String) (name : String)
  deriving DecidableEq, Repr

/-! ## The interface `IComTest` (lines 78-206 of the header) -/

/-- The `HRESULT` result type. -/
def HRESULT : CType := .named "HRESULT"

/-- The `ULONG` result type. -/
def ULONG : CType := .named "ULONG"

/-- The receiver parameter `IComTest * This` that opens every slot of the C form. -/
def thisParam : Param := ⟨[], none, .ptr (.named "IComTest"), "This"⟩

/-- The C++ form, lines 86-95: one pure virtual method on top of `IDispatch`. -/
def IComTest : CppInterface :=
  { uuid := "1B31B683-F0AA-4E71-8F50-F2D2E5E9E210"
    name := "IComTest"
    base := "IDispatch"
    methods :=
      [ { attrs := ["helpstring", "id"], result := HRESULT, callconv := "STDMETHODCALLTYPE",
          name := "ComTestMethod",
          params :=
            [ ⟨["in"], none, .named "double", "radius"⟩,
              ⟨["in"], none, .named "BSTR", "comment"⟩,
              ⟨["retval", "out"], none, .ptr (.named "double"), "ReturnVal"⟩ ] } ] }

/-- The C form, lines 100-160: the eight function pointers of `IComTestVtbl`
in the order written. -/
def IComTestVtbl : CVtbl :=
  { name := "IComTestVtbl"
    slots :=
      [ { attrs := [], result := HRESULT, callconv := "STDMETHODCALLTYPE",
          name := "QueryInterface",
          params :=
            [ ⟨[], none, .ptr (.named "IComTest"), "This"⟩,
              ⟨["in"], none, .named "REFIID", "riid"⟩,
              ⟨["annotation", "iid_is", "out"], some "_COM_Outptr_",
                .ptr (.ptr (.named "void")), "ppvObject"⟩ ] },
        { attrs := [], result := ULONG, callconv := "STDMETHODCALLTYPE",
          name := "AddRef",
          params := [ ⟨[], none, .ptr (.named "IComTest"), "This"⟩ ] },
        { attrs := [], result := ULONG, callconv := "STDMETHODCALLTYPE",
          name := "Release",
          params := [ ⟨[], none, .ptr (.named "IComTest"), "This"⟩ ] },
        { attrs := [], result := HRESULT, callconv := "STDMETHODCALLTYPE",
          name := "GetTypeInfoCount",
          params :=
            [ ⟨[], none, .ptr (.named "IComTest"), "This"⟩,
              ⟨["out"], none, .ptr (.named "UINT"), "pctinfo"⟩ ] },
        { attrs := [], result := HRESULT, callconv := "STDMETHODCALLTYPE",
          name := "GetTypeInfo",
          params :=
            [ ⟨[], none, .ptr (.named "IComTest"), "This"⟩,
              ⟨["in"], none, .named "UINT", "iTInfo"⟩,
              ⟨["in"], none, .named "LCID", "lcid"⟩,
              ⟨["out"], none, .ptr (.ptr (.named "ITypeInfo")), "ppTInfo"⟩ ] },
        { attrs := [], result := HRESULT, callconv := "STDMETHODCALLTYPE",
          name := "GetIDsOfNames",
          params :=
            [ ⟨[], none, .ptr (.named "IComTest"), "This"⟩,
              ⟨["in"], none, .named "REFIID", "riid"⟩,
              ⟨["size_is", "in"], none, .ptr (.named "LPOLESTR"), "rgszNames"⟩,
              ⟨["range", "in"], none, .named "UINT", "cNames"⟩,
              ⟨["in"], none, .named "LCID", "lcid"⟩,
              ⟨["size_is", "out"], none, .ptr (.named "DISPID"), "rgDispId"⟩ ] },
        { attrs := ["local"], result := HRESULT, callconv := "STDMETHODCALLTYPE",
          name := "Invoke",
          params :=
            [ ⟨[], none, .ptr (.named "IComTest"), "This"⟩,
              ⟨["annotation", "in"], some "_In_", .named "DISPID", "dispIdMember"⟩,
              ⟨["annotation", "in"], some "_In_", .named "REFIID", "riid"⟩,
              ⟨["annotation", "in"], some "_In_", .named "LCID", "lcid"⟩,
              ⟨["annotation", "in"], some "_In_", .named "WORD", "wFlags"⟩,
              ⟨["annotation", "out", "in"], some "_In_", .ptr (.named "DISPPARAMS"),
                "pDispParams"⟩,
              ⟨["annotation", "out"], some "_Out_opt_", .ptr (.named "VARIANT"), "pVarResult"⟩,
              ⟨["annotation", "out"], some "_Out_opt_", .ptr (.named "EXCEPINFO"),
                "pExcepInfo"⟩,
              ⟨["annotation", "out"], some "_Out_opt_", .ptr (.named "UINT"), "puArgErr"⟩ ] },
        { attrs := ["helpstring", "id"], result := HRESULT, callconv := "STDMETHODCALLTYPE",
          name := "ComTestMethod",
          params :=
            [ ⟨[], none, .ptr (.named "IComTest"), "This"⟩,
              ⟨["in"], none, .named "double", "radius"⟩,
              ⟨["in"], none, .named "BSTR", "comment"⟩,
              ⟨["retval", "out"], none, .ptr (.named "double"), "ReturnVal"⟩ ] } ] }

/-- The field through which the C form reaches its table of function pointers:
`interface IComTest { CONST_VTBL struct IComTestVtbl *lpVtbl; };`, lines 162-165. -/
def IComTest_cInterface : Decl := .cInterface "IComTest" "IComTestVtbl" "lpVtbl"

/-! ## The `COBJMACROS` helpers (lines 169-198) -/

/-- Lines 172-173. -/
def IComTest_QueryInterface : MacroDef :=
  { name := "IComTest_QueryInterface"
    params := ["This", "riid", "ppvObject"]
    body :=
      [.punct "(", .punct "(", .ident "This", .punct ")", .punct "->", .ident "lpVtbl",
        .punct "->", .ident "QueryInterface", .punct "(",
        .ident "This", .punct ",", .ident "riid", .punct ",", .ident "ppvObject",
        .punct ")", .punct ")"] }

/-- Lines 175-176. -/
def IComTest_AddRef : MacroDef :=
  { name := "IComTest_AddRef"
    params := ["This"]
    body :=
      [.punct "(", .punct "(", .ident "This", .punct ")", .punct "->", .ident "lpVtbl",
        .punct "->", .ident "AddRef", .punct "(",
        .ident "This",
        .punct ")", .punct ")"] }

/-- Lines 178-179. -/
def IComTest_Release : MacroDef :=
  { name := "IComTest_Release"
    params := ["This"]
    body :=
      [.punct "(", .punct "(", .ident "This", .punct ")", .punct "->", .ident "lpVtbl",
        .punct "->", .ident "Release", .punct "(",
        .ident "This",
        .punct ")", .punct ")"] }

/-- Lines 182-183. -/
def IComTest_GetTypeInfoCount : MacroDef :=
  { name := "IComTest_GetTypeInfoCount"
    params := ["This", "pctinfo"]
    body :=
      [.punct "(", .punct "(", .ident "This", .punct ")", .punct "->", .ident "lpVtbl",
        .punct "->", .ident "GetTypeInfoCount", .punct "(",
        .ident "This", .punct ",", .ident "pctinfo",
        .punct ")", .punct ")"] }

/-- Lines 185-186. -/
def IComTest_GetTypeInfo : MacroDef :=
  { name := "IComTest_GetTypeInfo"
    params := ["This", "iTInfo", "lcid", "ppTInfo"]
    body :=
      [.punct "(", .punct "(", .ident "This", .punct ")", .punct "->", .ident "lpVtbl",
        .punct "->", .ident "GetTypeInfo", .punct "(",
        .ident "This", .punct ",", .ident "iTInfo", .punct ",", .ident "lcid", .punct ",",
        .ident "ppTInfo",
        .punct ")", .punct ")"] }

/-- Lines 188-189. -/
def IComTest_GetIDsOfNames : MacroDef :=
  { name := "IComTest_GetIDsOfNames"
    params := ["This", "riid", "rgszNames", "cNames", "lcid", "rgDispId"]
    body :=
      [.punct "(", .punct "(", .ident "This", .punct ")", .punct "->", .ident "lpVtbl",
        .punct "->", .ident "GetIDsOfNames", .punct "(",
        .ident "This", .punct ",", .ident "riid", .punct ",", .ident "rgszNames", .punct ",",
        .ident "cNames", .punct ",", .ident "lcid", .punct ",", .ident "rgDispId",
        .punct ")", .punct ")"] }

/-- Lines 191-192. -/
def IComTest_Invoke : MacroDef :=
  { name := "IComTest_Invoke"
    params := ["This", "dispIdMember", "riid", "lcid", "wFlags", "pDispParams", "pVarResult",
      "pExcepInfo", "puArgErr"]
    body :=
      [.punct "(", .punct "(", .ident "This", .punct ")", .punct "->", .ident "lpVtbl",
        .punct "->", .ident "Invoke", .punct "(",
        .ident "This", .punct ",", .ident "dispIdMember", .punct ",", .ident "riid", .punct ",",
        .ident "lcid", .punct ",", .ident "wFlags", .punct ",", .ident "pDispParams",
        .punct ",", .ident "pVarResult", .punct ",", .ident "pExcepInfo", .punct ",",
        .ident "puArgErr",
        .punct ")", .punct ")"] }

/-- Lines 195-196. -/
def IComTest_ComTestMethod : MacroDef :=
  { name := "IComTest_ComTestMethod"
    params := ["This", "radius", "comment", "ReturnVal"]
    body :=
      [.punct "(", .punct "(", .ident "This", .punct ")", .punct "->", .ident "lpVtbl",
        .punct "->", .ident "ComTestMethod", .punct "(",
        .ident "This", .punct ",", .ident "radius", .punct ",", .ident "comment", .punct ",",
        .ident "ReturnVal",
        .punct ")", .punct ")"] }

/-- The eight helpers in the order the header defines them. -/
def IComTest_macros : List MacroDef :=
  [IComTest_QueryInterface, IComTest_AddRef, IComTest_Release, IComTest_GetTypeInfoCount,
    IComTest_GetTypeInfo, IComTest_GetIDsOfNames, IComTest_Invoke, IComTest_ComTestMethod]

/-! ## The library `ComTestLibrary` (lines 210-226) -/

/-- The argument of `DECLSPEC_UUID` on line 223. -/
def ComTest_uuid : String := "71AD0B2F-E5D0-4272-A4FD-18F707D5E0D6"

/-- Lines 223-224: `class DECLSPEC_UUID("71AD0B2F-E5D0-4272-A4FD-18F707D5E0D6") ComTest;`. -/
def ComTest : Decl := .uuidClass ComTest_uuid "ComTest"

/-! ## The header under its preprocessor switches -/

/-- The switches the header tests with `#ifdef` and `#if defined`: whether the
translation unit is C++ (`__cplusplus`), and whether the includer defined
`CINTERFACE` and `COBJMACROS`. -/
structure Config where
  cplusplus : Bool
  CINTERFACE : Bool
  COBJMACROS : Bool
  deriving DecidableEq, Repr

/-- The declarations of the interface section and of the library section that
survive preprocessing, in order, at the first inclusion of the header (its
include guards not yet defined).  Line 84 selects the C++ form when
`__cplusplus` is defined and `CINTERFACE` is not, otherwise the C form; the
helpers sit inside the C form under `#ifdef COBJMACROS`; line 221 declares the
class with its identifier only for C++. -/
def definitions_h (cfg : Config) : List Decl :=
  [.externConst "IID" "IID_IComTest"]
  ++ (if cfg.cplusplus && !cfg.CINTERFACE then
        [.cppInterface IComTest]
      else
        [.cVtbl IComTestVtbl, IComTest_cInterface]
        ++ (if cfg.COBJMACROS then IComTest_macros.map .define else []))
  ++ [.externConst "IID" "LIBID_ComTestLibrary", .externConst "CLSID" "CLSID_ComTest"]
  ++ (if cfg.cplusplus then [ComTest] else [])

/-- The identifier text a declaration attaches to a name, when it attaches one:
`MIDL_INTERFACE("...")` on an interface and `DECLSPEC_UUID("...")` on a class. -/
def Decl.attachedUuid : Decl → Option (String × String)
  | .cppInterface i => some (i.name, i.uuid)
  | .uuidClass uuid name => some (name, uuid)
  | _ => none

/-- Every (name, identifier text) pair the declarations attach, in order. -/
def attachedUuids (ds : List Decl) : List (String × String) :=
  ds.filterMap Decl.attachedUuid

/-- The identifier text attached to `name`, if any. -/
def uuidOf (ds : List Decl) (name : String) : Option String :=
  (attachedUuids ds).lookup name

/-- The name a constant stands for, by the prefix convention of the header:
`IID_IComTest` for `IComTest`, `CLSID_ComTest` for `ComTest`,
`LIBID_ComTestLibrary` for `ComTestLibrary` (what follows the first underscore). -/
def subjectOf (constant : String) : String :=
  String.mk ((constant.toList.dropWhile fun c => c != '_').drop 1)

/-- The identifier text the declarations determine for a constant: the text
attached to the name the constant stands for, if any. -/
def valueOf (ds : List Decl) (constant : String) : Option String :=
  uuidOf ds (subjectOf constant)

/-- The helper macros the declarations define, in order. -/
def definedMacros (ds : List Decl) : List MacroDef :=
  ds.filterMap fun
    | .define m => some m
    | _ => none

/-- The constants declared `EXTERN_C const type name;`, as (name, type). -/
def externConsts (ds : List Decl) : List (String × String) :=
  ds.filterMap fun
    | .externConst type name => some (name, type)
    | _ => none

/-! ## Identifier text -/

/-- A hexadecimal digit, either case. -/
def isHexDigit (c : Char) : Bool :=
  ('0' ≤ c && c ≤ '9') || ('A' ≤ c && c ≤ 'F') || ('a' ≤ c && c ≤ 'f')

/-- The groups of a text between its hyphens (a text without hyphen is one group). -/
def hyphenGroups : List Char → List (List Char)
  | [] => [[]]
  | c :: cs =>
    if c = '-' then [] :: hyphenGroups cs
    else
      match hyphenGroups cs with
      | [] => [[c]]
      | g :: gs => (c :: g) :: gs

/-- The textual form of a 128-bit unique identifier: five groups separated by
hyphens, of 8, 4, 4, 4 and 12 hexadecimal digits, and nothing else. -/
def isUuidText (s : String) : Bool :=
  let gs := hyphenGroups s.toList
  (gs.map List.length == [8, 4, 4, 4, 12]) && gs.all fun g => g.all isHexDigit

/-- The first character of the group of index `i` (from 0) of an identifier text. -/
def groupLead (s : String) (i : Nat) : Option Char :=
  ((hyphenGroups s.toList).get? i).bind List.head?

/-- The hexadecimal digits of an identifier text, hyphens removed. -/
def uuidDigits (s : String) : List Char :=
  (hyphenGroups s.toList).flatten

/-! ## Reading a method declaration -/

/-- The method of the C++ form with the given name. -/
def CppInterface.method? (i : CppInterface) (name : String) : Option Method :=
  i.methods.find? fun m => m.name == name

/-- The slot of the C form with the given name. -/
def CVtbl.slot? (v : CVtbl) (name : String) : Option Method :=
  v.slots.find? fun m => m.name == name

/-- The parameters a method takes as inputs: those marked `[in]`. -/
def Method.inputs (m : Method) : List Param :=
  m.params.filter fun p => p.attrs.contains "in"

/-- The parameters through which a method gives back values: those marked `[out]`. -/
def Method.outputs (m : Method) : List Param :=
  m.params.filter fun p => p.attrs.contains "out"

/-- The names of the slots a C++ interface lays out, given the slots of its base:
the base's slots first, then its own methods in declaration order. -/
def CppInterface.layout (i : CppInterface) (baseSlots : List String) : List String :=
  baseSlots ++ i.methods.map Method.name

/-- A C++ method written as a slot of the C form: the same declaration with the
receiver `IComTest * This` put in front of its parameters. -/
def Method.withReceiver (m : Method) : Method :=
  { m with params := thisParam :: m.params }

/-! ## Macro replacement -/

/-- A macro of the preprocessor's environment: object-like (`#define name body`)
or function-like (`#define name(params) body`). -/
inductive Macro where
  | object (name : String) (body : List Tok)
  | function (m : MacroDef)
  deriving DecidableEq, Repr

/-- The name a macro is defined under. -/
def Macro.name : Macro → String
  | .object name _ => name
  | .function m => m.name

/-- The macros the header has defined once it is included for the first time: the
version requirement of line 24 (when the includer has not set it), the header's
five guards, all with an empty replacement list, and the helpers that survive the
switches. -/
def definitions_h_macros (cfg : Config) : List Macro :=
  [ .object "__REQUIRED_RPCNDR_H_VERSION__" [.number "475"],
    .object "__definitions_h__" [],
    .object "__IComTest_FWD_DEFINED__" [],
    .object "__ComTest_FWD_DEFINED__" [],
    .object "__IComTest_INTERFACE_DEFINED__" [] ]
  ++ (definedMacros (definitions_h cfg)).map .function
  ++ [ .object "__ComTestLibrary_LIBRARY_DEFINED__" [] ]

/-- The definition in force for a name, if the name is a macro. -/
def lookupMacro (env : List Macro) (x : String) : Option Macro :=
  env.find? fun m => m.name == x

/-- Whether a token is an identifier that names a macro. -/
def isMacroName (env : List Macro) : Tok → Bool
  | .ident x => (lookupMacro env x).isSome
  | _ => false

/-- A token under replacement, with the macro names that may no longer be replaced
in it: the names of the macros whose replacement produced it. -/
structure PTok where
  tok : Tok
  hide : List String
  deriving DecidableEq, Repr

/-- A token of the source text: nothing hidden yet. -/
def PTok.plain (t : Tok) : PTok := ⟨t, []⟩

/-- Adds names to the hidden names of a token. -/
def PTok.addHide (names : List String) (t : PTok) : PTok := ⟨t.tok, names ++ t.hide⟩

/-- Reads the arguments of an invocation from the tokens that follow its opening
parenthesis.  `depth` counts the parentheses open inside the current argument,
`cur` is the current argument so far, `done` the arguments already closed.  A
comma outside inner parentheses closes an argument, the matching closing
parenthesis closes the last one.  The result is the arguments, the hidden names
of the closing parenthesis and the tokens after it; there is none when the
tokens end before the invocation does. -/
def collectArgs : Nat → List PTok → List (List PTok) → List PTok →
    Option (List (List PTok) × List String × List PTok)
  | _, _, _, [] => none
  | depth, cur, done, t :: ts =>
    if t.tok = .punct "(" then collectArgs (depth + 1) (cur ++ [t]) done ts
    else if t.tok = .punct ")" then
      if depth = 0 then some (done ++ [cur], t.hide, ts)
      else collectArgs (depth - 1) (cur ++ [t]) done ts
    else if t.tok = .punct "," then
      if depth = 0 then collectArgs 0 [] (done ++ [cur]) ts
      else collectArgs depth (cur ++ [t]) done ts
    else collectArgs depth (cur ++ [t]) done ts

/-- The replacement list of a function-like macro with each parameter replaced by
the tokens of its (already expanded) argument.  The header's replacement lists
use neither `#` nor `##`. -/
def MacroDef.replace (m : MacroDef) (actuals : List (List PTok)) : List PTok :=
  m.body.flatMap fun
    | .ident x => ((m.params.zip actuals).lookup x).getD [PTok.plain (.ident x)]
    | t => [PTok.plain t]

/-- The identifiers of a replacement list that are not parameters of the macro. -/
def MacroDef.ownIdents (m : MacroDef) : List String :=
  m.body.filterMap fun
    | .ident x => if m.params.contains x then none else some x
    | _ => none

/-- Expands every argument with the given expander; fails when one fails. -/
def expandEach (expander : List PTok → Option (List PTok)) :
    List (List PTok) → Option (List (List PTok))
  | [] => some []
  | a :: as =>
    match expander a, expandEach expander as with
    | some e, some es => some (e :: es)
    | _, _ => none

/-- One scan of a token sequence for macros to replace.  A token that is no macro
name, or whose name is hidden in it, or that names a function-like macro and is
not followed by `(`, stays.  An object-like macro name is replaced by its
replacement list.  A function-like macro name followed by `(` is an invocation:
its arguments are read, each is completely macro-replaced on its own, the
results are put for the parameters of the replacement list, and what comes out is
rescanned together with the tokens that follow the invocation, the macro's name
hidden in it.  `rescan` is the expander used for the arguments and for the
rescan.  There is no result when an invocation is not closed or has the wrong
number of arguments, or when `rescan` gives none. -/
def scan (env : List Macro) (rescan : List PTok → Option (List PTok)) :
    List PTok → Option (List PTok)
  | [] => some []
  | t :: ts =>
    match t.tok with
    | .ident x =>
      if t.hide.contains x then (scan env rescan ts).map (t :: ·)
      else
        match lookupMacro env x with
        | none => (scan env rescan ts).map (t :: ·)
        | some (.object _ body) =>
          rescan ((body.map PTok.plain).map (PTok.addHide (x :: t.hide)) ++ ts)
        | some (.function m) =>
          match ts with
          | [] => some [t]
          | p :: ts' =>
            if p.tok = .punct "(" then
              match collectArgs 0 [] [] ts' with
              | none => none
              | some (read, closeHide, rest) =>
                let actuals := if m.params.isEmpty && read == [[]] then [] else read
                if actuals.length = m.params.length then
                  match expandEach rescan actuals with
                  | none => none
                  | some expanded =>
                    rescan ((m.replace expanded).map
                      (PTok.addHide (x :: t.hide.filter closeHide.contains)) ++ rest)
                else none
            else (scan env rescan (p :: ts')).map (t :: ·)
    | _ => (scan env rescan ts).map (t :: ·)

/-- Complete macro replacement of a token sequence, with at most `fuel` nested
rounds of rescanning: a sequence without macro to replace needs none, every
replacement hands the rescan one round less. -/
def expandToks (env : List Macro) : Nat → List PTok → Option (List PTok)
  | 0 => scan env fun _ => none
  | fuel + 1 => scan env (expandToks env fuel)

/-- Complete macro replacement of source tokens: the tokens that come out. -/
def preprocess (env : List Macro) (fuel : Nat) (ts : List Tok) : Option (List Tok) :=
  (expandToks env fuel (ts.map PTok.plain)).map (List.map PTok.tok)

/-- Token sequences written one after the other with a comma between each two. -/
def commaSeparated : List (List Tok) → List Tok
  | [] => []
  | [a] => a
  | a :: as => a ++ .punct "," :: commaSeparated as

/-- The tokens of the invocation `name(a1,...,an)`. -/
def invocation (name : String) (args : List (List Tok)) : List Tok :=
  .ident name :: .punct "(" :: (commaSeparated args ++ [.punct ")"])

/-- The parenthesis depth after a token sequence that starts at depth `depth`;
none when the sequence closes a parenthesis it did not open or has a comma
outside parentheses. -/
def argDepth : Nat → List Tok → Option Nat
  | depth, [] => some depth
  | depth, t :: ts =>
    if t = .punct "(" then argDepth (depth + 1) ts
    else if t = .punct ")" then
      if depth = 0 then none else argDepth (depth - 1) ts
    else if t = .punct "," then
      if depth = 0 then none else argDepth depth ts
    else argDepth depth ts

/-- Whether a token sequence can be written as one argument of an invocation: its
parentheses match and every comma is inside parentheses. -/
def isArgument (ts : List Tok) : Bool :=
  argDepth 0 ts == some 0

/-- The tokens of a call of slot `slot` through the `lpVtbl` field of the
receiver: `( (receiver)->lpVtbl -> slot(a1,...,an) )`. -/
def vtblCall (receiver : List Tok) (slot : String) (passed : List (List Tok)) : List Tok :=
  [.punct "(", .punct "("] ++ receiver
  ++ [.punct ")", .punct "->", .ident "lpVtbl", .punct "->", .ident slot, .punct "("]
  ++ commaSeparated passed
  ++ [.punct ")", .punct ")"]

/-- The name of the helper of a slot: `IComTest_` followed by the slot's name. -/
def helperName (slot : String) : String :=
  "IComTest_" ++ slot

/-! ## Argument values -/

/-- Modelled from the spec: the values of the two input types, which the header
takes from the language and the platform headers: "a floating-point value", as
the bit pattern of a 64-bit `double`, and "a text string of arbitrary length", as
the 16-bit code units of a `BSTR`. -/
inductive Value where
  | double (bits : Nat)
  | BSTR (units : List Nat)
  deriving DecidableEq, Repr

/-- Modelled from the spec: whether a value belongs to a declared type.  Any
64-bit pattern is a `double` and any sequence of 16-bit units is a `BSTR`; no
other declared type admits these values. -/
def Value.hasType : Value → CType → Bool
  | .double bits, .named t => t == "double" && decide (bits < 2 ^ 64)
  | .BSTR units, .named t => t == "BSTR" && units.all fun u => decide (u < 2 ^ 16)
  | _, .ptr _ => false

/-- Whether a list of argument values is accepted by the declared types of a
method's inputs: one value per input, each of the input's type. -/
def Method.acceptsInputs (m : Method) (args : List Value) : Bool :=
  m.inputs.length == args.length
  && (m.inputs.zip args).all fun pv => pv.2.hasType pv.1.type

/-- The attributes by which the interface description narrows the values of a
parameter beyond its type: `range` (bounds on a number) and `size_is` (a length
tied to another parameter). -/
def Param.narrowed (p : Param) : Bool :=
  p.attrs.contains "range" || p.attrs.contains "size_is"

/-- The value `0.0` of type `double`: the all-zero bit pattern. -/
def zeroDouble : Value := .double 0

/-- The empty string as a `BSTR`: no code unit. -/
def emptyBSTR : Value := .BSTR []

/-! ## The textual round trip of an identifier -/

/-- Modelled from the spec: the value of one hexadecimal digit, either case. -/
def hexValue (c : Char) : Nat :=
  if '0' ≤ c ∧ c ≤ '9' then c.toNat - 48
  else if 'A' ≤ c ∧ c ≤ 'F' then c.toNat - 55
  else c.toNat - 87

/-- Modelled from the spec: the upper-case hexadecimal digit of a value below 16. -/
def hexDigit (d : Nat) : Char :=
  if d < 10 then Char.ofNat (48 + d) else Char.ofNat (55 + d)

/-- Modelled from the spec: the number a sequence of hexadecimal digits writes,
most significant digit first. -/
def hexNumber (cs : List Char) : Nat :=
  cs.foldl (fun acc c => 16 * acc + hexValue c) 0

/-- Modelled from the spec: the `width` lowest hexadecimal digits of a number,
most significant first. -/
def hexText : Nat → Nat → List Char
  | 0, _ => []
  | width + 1, n => hexText width (n / 16) ++ [hexDigit (n % 16)]

/-- Modelled from the spec: decoding an identifier text ("standard
unique-identifier textual round-trip"; the header itself has no decoder): a text
of the 8-4-4-4-12 form denotes the 128-bit number its 32 digits write, any other
text denotes nothing. -/
def decodeUuid (s : String) : Option Nat :=
  if isUuidText s then some (hexNumber (uuidDigits s)) else none

/-- Modelled from the spec: encoding a 128-bit value as identifier text (the
header itself has no encoder): its 32 upper-case hexadecimal digits in groups of
8, 4, 4, 4 and 12 separated by hyphens. -/
def encodeUuid (v : Nat) : String :=
  String.mk
    (hexText 8 (v / 2 ^ 96 % 2 ^ 32) ++ '-' ::
      (hexText 4 (v / 2 ^ 80 % 2 ^ 16) ++ '-' ::
        (hexText 4 (v / 2 ^ 64 % 2 ^ 16) ++ '-' ::
          (hexText 4 (v / 2 ^ 48 % 2 ^ 16) ++ '-' ::
            hexText 12 (v % 2 ^ 48)))))

/-- The text whose groups are the given ones: the groups with a hyphen between
each two. -/
def joinGroups : List (List Char) → List Char
  | [] => []
  | [g] => g
  | g :: gs => g ++ '-' :: joinGroups gs

/-- A hexadecimal digit that is a decimal digit or an upper-case letter. -/
def isUpperHex (c : Char) : Bool :=
  isHexDigit c && !('a' ≤ c && c ≤ 'f')

/-- The four version bits of a 128-bit identifier: the first digit of the third group. -/
def uuidVersion (v : Nat) : Nat :=
  v / 2 ^ 76 % 16

/-- The two variant bits of a 128-bit identifier: the top bits of the first digit
of the fourth group (`2` for the digits 8, 9, A, B). -/
def uuidVariant (v : Nat) : Nat :=
  v / 2 ^ 62 % 4

/-! ## Properties of the identifiers -/

/-- C1: the identifier attached to `IComTest` is the text
`1B31B683-F0AA-4E71-8F50-F2D2E5E9E210` (attached exactly when the C++ form is
compiled), and that text is a well-formed 128-bit identifier: five hyphen-separated
groups of 8, 4, 4, 4 and 12 hexadecimal digits, 32 digits of 4 bits, nothing else. -/
theorem interface_identifier_text :
    IComTest.uuid = "1B31B683-F0AA-4E71-8F50-F2D2E5E9E210"
    ∧ (∀ cfg : Config, uuidOf (definitions_h cfg) "IComTest"
        = if cfg.cplusplus && !cfg.CINTERFACE then
            some "1B31B683-F0AA-4E71-8F50-F2D2E5E9E210" else none)
    ∧ isUuidText IComTest.uuid = true
    ∧ (hyphenGroups IComTest.uuid.toList).map List.length = [8, 4, 4, 4, 12]
    ∧ (uuidDigits IComTest.uuid).all isHexDigit = true
    ∧ (uuidDigits IComTest.uuid).length = 32
    ∧ 4 * (uuidDigits IComTest.uuid).length = 128 := by
  refine ⟨rfl, ?_, by decide, by decide, by decide, by decide, by decide⟩
  rintro ⟨a, b, c⟩
  cases a <;> cases b <;> cases c <;> decide

/-- C2: the identifier attached to the class `ComTest` is the text
`71AD0B2F-E5D0-4272-A4FD-18F707D5E0D6` (attached exactly for C++), and that text
is a well-formed 128-bit identifier: five hyphen-separated groups of 8, 4, 4, 4
and 12 hexadecimal digits, 32 digits of 4 bits, nothing else. -/
theorem class_identifier_text :
    ComTest = .uuidClass "71AD0B2F-E5D0-4272-A4FD-18F707D5E0D6" "ComTest"
    ∧ (∀ cfg : Config, uuidOf (definitions_h cfg) "ComTest"
        = if cfg.cplusplus then some "71AD0B2F-E5D0-4272-A4FD-18F707D5E0D6" else none)
    ∧ isUuidText ComTest_uuid = true
    ∧ (hyphenGroups ComTest_uuid.toList).map List.length = [8, 4, 4, 4, 12]
    ∧ (uuidDigits ComTest_uuid).all isHexDigit = true
    ∧ (uuidDigits ComTest_uuid).length = 32
    ∧ 4 * (uuidDigits ComTest_uuid).length = 128 := by
  refine ⟨rfl, ?_, by decide, by decide, by decide, by decide, by decide⟩
  rintro ⟨a, b, c⟩
  cases a <;> cases b <;> cases c <;> decide

/-- C4 as stated fails: in the configuration that attaches the most (C++, no
`CINTERFACE`), the header determines the texts of `IID_IComTest` and
`CLSID_ComTest` but nothing for `LIBID_ComTestLibrary`. -/
theorem library_identifier_has_no_value :
    valueOf (definitions_h ⟨true, false, true⟩) "IID_IComTest"
        = some "1B31B683-F0AA-4E71-8F50-F2D2E5E9E210"
    ∧ valueOf (definitions_h ⟨true, false, true⟩) "CLSID_ComTest"
        = some "71AD0B2F-E5D0-4272-A4FD-18F707D5E0D6"
    ∧ valueOf (definitions_h ⟨true, false, true⟩) "LIBID_ComTestLibrary" = none
    ∧ uuidOf (definitions_h ⟨true, false, true⟩) "LIBID_ComTestLibrary" = none := by
  decide

/-- C4 amended: under every setting of the switches the header declares
`LIBID_ComTestLibrary` as an external constant of the identifier type `IID`, the
type of `IID_IComTest`, and attaches no identifier text to it: the only names
that ever get a text are `IComTest` and `ComTest`. -/
theorem library_identifier_declared_only (cfg : Config) :
    externConsts (definitions_h cfg)
        = [("IID_IComTest", "IID"), ("LIBID_ComTestLibrary", "IID"), ("CLSID_ComTest", "CLSID")]
    ∧ valueOf (definitions_h cfg) "LIBID_ComTestLibrary" = none
    ∧ uuidOf (definitions_h cfg) "LIBID_ComTestLibrary" = none
    ∧ (attachedUuids (definitions_h cfg)).all
        (fun p => p.1 == "IComTest" || p.1 == "ComTest") = true := by
  obtain ⟨a, b, c⟩ := cfg
  cases a <;> cases b <;> cases c <;> decide

/-- C10: the interface identifier and the class identifier are different texts
writing different 128-bit numbers, and both are version 4 identifiers of the
standard variant: the third group (`4E71`, `4272`) starts with the digit 4, the
fourth group (`8F50`, `A4FD`) with one of 8, 9, A, B. -/
theorem identifiers_distinct_version_4 :
    IComTest.uuid ≠ ComTest_uuid
    ∧ hexNumber (uuidDigits IComTest.uuid) ≠ hexNumber (uuidDigits ComTest_uuid)
    ∧ hexNumber (uuidDigits IComTest.uuid) < 2 ^ 128
    ∧ hexNumber (uuidDigits ComTest_uuid) < 2 ^ 128
    ∧ (hyphenGroups IComTest.uuid.toList).drop 2
        = ["4E71".toList, "8F50".toList, "F2D2E5E9E210".toList]
    ∧ (hyphenGroups ComTest_uuid.toList).drop 2
        = ["4272".toList, "A4FD".toList, "18F707D5E0D6".toList]
    ∧ groupLead IComTest.uuid 2 = some '4'
    ∧ groupLead ComTest_uuid 2 = some '4'
    ∧ groupLead IComTest.uuid 3 ∈ [some '8', some '9', some 'A', some 'B']
    ∧ groupLead ComTest_uuid 3 ∈ [some '8', some '9', some 'A', some 'B']
    ∧ uuidVersion (hexNumber (uuidDigits IComTest.uuid)) = 4
    ∧ uuidVersion (hexNumber (uuidDigits ComTest_uuid)) = 4
    ∧ uuidVariant (hexNumber (uuidDigits IComTest.uuid)) = 2
    ∧ uuidVariant (hexNumber (uuidDigits ComTest_uuid)) = 2 := by
  decide

/-! ## Properties of the method and of the table of slots -/

/-- C3: `ComTestMethod` takes exactly one floating-point input (`double radius`)
and exactly one string input (`BSTR comment`), gives back exactly one
floating-point output through `double *ReturnVal`, and returns a status
(`HRESULT`) that is the function result and none of the parameters; besides the
receiver of the C form it has no other parameter. -/
theorem ComTestMethod_signature :
    ∃ cpp c,
      IComTest.method? "ComTestMethod" = some cpp
      ∧ IComTestVtbl.slot? "ComTestMethod" = some c
      ∧ cpp.inputs = [⟨["in"], none, .named "double", "radius"⟩,
                      ⟨["in"], none, .named "BSTR", "comment"⟩]
      ∧ cpp.outputs = [⟨["retval", "out"], none, .ptr (.named "double"), "ReturnVal"⟩]
      ∧ cpp.params = cpp.inputs ++ cpp.outputs
      ∧ cpp.result = .named "HRESULT"
      ∧ cpp.params.all (fun p => p.type != cpp.result) = true
      ∧ c.inputs = cpp.inputs
      ∧ c.outputs = cpp.outputs
      ∧ c.params = thisParam :: (c.inputs ++ c.outputs)
      ∧ c.result = .named "HRESULT"
      ∧ c.params.all (fun p => p.type != c.result) = true := by
  refine ⟨_, _, rfl, rfl, ?_⟩
  decide

/-- C5: `IComTest` declares one method of its own, `ComTestMethod`, on top of
`IDispatch`; the C table `IComTestVtbl` has exactly eight slots, in the order
QueryInterface, AddRef, Release, GetTypeInfoCount, GetTypeInfo, GetIDsOfNames,
Invoke, ComTestMethod: the three introspection slots are present,
`ComTestMethod` is the last one, and the table is the layout the C++ form gets
from a base with the first seven slots. -/
theorem IComTestVtbl_layout :
    IComTest.methods.map Method.name = ["ComTestMethod"]
    ∧ IComTest.base = "IDispatch"
    ∧ IComTestVtbl.slots.length = 8
    ∧ IComTestVtbl.slots.map Method.name
        = ["QueryInterface", "AddRef", "Release", "GetTypeInfoCount", "GetTypeInfo",
            "GetIDsOfNames", "Invoke", "ComTestMethod"]
    ∧ (IComTestVtbl.slots.map Method.name).getLast? = some "ComTestMethod"
    ∧ (∀ baseSlots : List String, IComTest.layout baseSlots = baseSlots ++ ["ComTestMethod"])
    ∧ IComTestVtbl.slots.map Method.name
        = IComTest.layout ["QueryInterface", "AddRef", "Release", "GetTypeInfoCount",
            "GetTypeInfo", "GetIDsOfNames", "Invoke"]
    ∧ (IComTestVtbl.slots.map Method.name).Nodup
    ∧ (∀ op ∈ ["GetTypeInfoCount", "GetTypeInfo", "GetIDsOfNames", "Invoke"],
        (IComTestVtbl.slot? op).isSome = true) := by
  refine ⟨by decide, by decide, by decide, by decide, by decide, fun _ => rfl, by decide,
    by decide, by decide⟩

/-- C8: the two forms of the interface agree on `ComTestMethod`: the slot of the
C table is the C++ pure virtual method (same attributes, result type `HRESULT`,
calling convention, name, and the parameters `[in] double radius`,
`[in] BSTR comment`, `[retval][out] double *ReturnVal` in that order) with the
receiver `IComTest * This` put in front and no other difference. -/
theorem ComTestMethod_forms_agree :
    ∃ cpp c,
      IComTest.method? "ComTestMethod" = some cpp
      ∧ IComTestVtbl.slot? "ComTestMethod" = some c
      ∧ c = cpp.withReceiver
      ∧ c.result = cpp.result
      ∧ c.result = HRESULT
      ∧ c.attrs = cpp.attrs
      ∧ c.callconv = cpp.callconv
      ∧ c.name = cpp.name
      ∧ c.params = ⟨[], none, .ptr (.named "IComTest"), "This"⟩ :: cpp.params
      ∧ cpp.params = [⟨["in"], none, .named "double", "radius"⟩,
                      ⟨["in"], none, .named "BSTR", "comment"⟩,
                      ⟨["retval", "out"], none, .ptr (.named "double"), "ReturnVal"⟩] := by
  refine ⟨_, _, rfl, rfl, ?_⟩
  decide

/-! ## The helper macros -/

/-- Reading tokens that stay inside one argument moves them to the current argument. -/
theorem collectArgs_append (a : List Tok) :
    ∀ (depth depth' : Nat) (cur : List PTok) (done : List (List PTok)) (tail : List PTok),
      argDepth depth a = some depth' →
      collectArgs depth cur done (a.map PTok.plain ++ tail)
        = collectArgs depth' (cur ++ a.map PTok.plain) done tail := by
  induction a with
  | nil => intro depth depth' cur done tail h; simp [argDepth] at h; simp [h]
  | cons t a ih =>
    intro depth depth' cur done tail h
    simp only [List.map_cons, List.cons_append, collectArgs, PTok.plain]
    simp only [argDepth] at h
    by_cases h1 : t = .punct "("
    · simp only [h1, if_true] at h ⊢
      simpa [PTok.plain, h1] using ih _ _ (cur ++ [PTok.plain t]) done tail h
    · simp only [h1, if_false] at h ⊢
      by_cases h2 : t = .punct ")"
      · simp only [h2, if_true] at h ⊢
        by_cases hd : depth = 0
        · simp [hd] at h
        · simp only [hd, if_false] at h ⊢
          simpa [PTok.plain, h2] using ih _ _ (cur ++ [PTok.plain t]) done tail h
      · simp only [h2, if_false] at h ⊢
        by_cases h3 : t = .punct ","
        · simp only [h3, if_true] at h ⊢
          by_cases hd : depth = 0
          · simp [hd] at h
          · simp only [hd, if_false] at h ⊢
            simpa [PTok.plain, h3] using ih _ _ (cur ++ [PTok.plain t]) done tail h
        · simp only [h3, if_false] at h ⊢
          simpa [PTok.plain] using ih _ _ (cur ++ [PTok.plain t]) done tail h

/-- Reading the arguments of a well-formed invocation gives back the arguments as
written and the tokens after the closing parenthesis. -/
theorem collectArgs_invocation (args : List (List Tok)) :
    args ≠ [] → (∀ a ∈ args, isArgument a = true) →
    ∀ (done : List (List PTok)) (rest : List PTok),
      collectArgs 0 [] done
          ((commaSeparated args).map PTok.plain ++ PTok.plain (.punct ")") :: rest)
        = some (done ++ args.map (List.map PTok.plain), [], rest) := by
  induction args with
  | nil => intro h; exact absurd rfl h
  | cons a as ih =>
    intro _ hargs done rest
    have ha : argDepth 0 a = some 0 := by
      have := hargs a (List.mem_cons_self _ _)
      simpa [isArgument] using this
    cases as with
    | nil =>
      simp only [commaSeparated]
      rw [collectArgs_append a 0 0 [] done _ ha]
      simp [collectArgs, PTok.plain]
    | cons b bs =>
      simp only [commaSeparated, List.map_append, List.map_cons, List.append_assoc,
        List.cons_append]
      rw [collectArgs_append a 0 0 [] done _ ha]
      have ih2 := ih (List.cons_ne_nil _ _)
        (fun x hx => hargs x (List.mem_cons_of_mem _ hx)) (done ++ [a.map PTok.plain]) rest
      simp only [collectArgs, PTok.plain, List.nil_append]
      simp only [PTok.plain] at ih2
      simp [ih2]

/-- A scan leaves a sequence without macro name as it is, whatever the rescanner. -/
theorem scan_plain (env : List Macro) (rescan : List PTok → Option (List PTok))
    (ts : List PTok) (h : ∀ t ∈ ts, isMacroName env t.tok = false) :
    scan env rescan ts = some ts := by
  induction ts with
  | nil => rfl
  | cons t ts ih =>
    have ht := h t (List.mem_cons_self _ _)
    have ih2 := ih (fun x hx => h x (List.mem_cons_of_mem _ hx))
    unfold scan
    split
    · rename_i x hx
      rw [hx] at ht
      have hnone : lookupMacro env x = none := by
        cases hl : lookupMacro env x with
        | none => rfl
        | some _ => simp [isMacroName, hl] at ht
      simp [hnone, ih2]
    · simp [ih2]

/-- Complete replacement leaves a sequence without macro name as it is, with any fuel. -/
theorem expandToks_plain (env : List Macro) (fuel : Nat) (ts : List PTok)
    (h : ∀ t ∈ ts, isMacroName env t.tok = false) :
    expandToks env fuel ts = some ts := by
  cases fuel <;> exact scan_plain env _ ts h

/-- The invocation of a function-like macro whose arguments expand with `fuel`
and whose replacement has no macro name left expands with one round more to the
replacement list with the expanded arguments put for the parameters. -/
theorem preprocess_invocation (env : List Macro) (fuel : Nat) (m : MacroDef)
    (args : List (List Tok)) (expanded : List (List PTok))
    (hm : lookupMacro env m.name = some (.function m))
    (hne : args ≠ [])
    (hlen : args.length = m.params.length)
    (hargs : ∀ a ∈ args, isArgument a = true)
    (hexp : expandEach (expandToks env fuel) (args.map (List.map PTok.plain)) = some expanded)
    (hfree : ∀ t ∈ m.replace expanded, isMacroName env t.tok = false) :
    preprocess env (fuel + 1) (invocation m.name args)
      = some ((m.replace expanded).map PTok.tok) := by
  have hcol := collectArgs_invocation args hne hargs [] []
  have hpar : m.params.isEmpty = false := by
    cases hp : m.params with
    | nil => rw [hp] at hlen; cases args with
      | nil => exact absurd rfl hne
      | cons _ _ => simp at hlen
    | cons _ _ => rfl
  have hres : expandToks env fuel ((m.replace expanded).map (PTok.addHide [m.name]) ++ [])
      = some ((m.replace expanded).map (PTok.addHide [m.name])) := by
    rw [List.append_nil]
    apply expandToks_plain
    intro t ht
    obtain ⟨u, hu, rfl⟩ := List.mem_map.1 ht
    exact hfree u hu
  simp only [preprocess, invocation, expandToks, List.map_cons, List.map_append, List.map_nil]
  unfold scan
  simp only [PTok.plain, List.contains_nil, Bool.false_eq_true, if_false, hm]
  simp only [PTok.plain, List.nil_append] at hcol
  rw [if_pos trivial, hcol]
  simp only [hpar, Bool.false_and, Bool.false_eq_true, if_false, List.length_map, hlen, if_true]
  rw [hexp]
  simp only [List.filter_nil]
  rw [hres]
  simp [PTok.addHide, Function.comp_def]

/-- Expanding each argument succeeds with a stronger expander when it does with a
weaker one, with the same results. -/
theorem expandEach_mono (r1 r2 : List PTok → Option (List PTok))
    (h : ∀ ts r, r1 ts = some r → r2 ts = some r) :
    ∀ (as es : List (List PTok)), expandEach r1 as = some es → expandEach r2 as = some es := by
  intro as
  induction as with
  | nil => intro es he; simpa [expandEach] using he
  | cons a as ih =>
    intro es he
    simp only [expandEach] at he ⊢
    split at he
    · rename_i e es' h1 h2
      rw [h a e h1, ih es' h2]
      exact he
    · simp at he

/-- A scan succeeds with a stronger rescanner when it does with a weaker one, with
the same result. -/
theorem scan_mono (env : List Macro) (r1 r2 : List PTok → Option (List PTok))
    (h : ∀ ts r, r1 ts = some r → r2 ts = some r) :
    ∀ (ts r : List PTok), scan env r1 ts = some r → scan env r2 ts = some r := by
  intro ts
  induction ts with
  | nil => intro r hr; simpa [scan] using hr
  | cons t ts ih =>
    intro r hr
    have keep : ∀ r, (scan env r1 ts).map (t :: ·) = some r →
        (scan env r2 ts).map (t :: ·) = some r := by
      intro r hr
      cases hs : scan env r1 ts with
      | none => simp [hs] at hr
      | some r' =>
        rw [hs] at hr
        rw [ih r' hs]
        exact hr
    unfold scan at hr ⊢
    cases htok : t.tok with
    | punct s => simp only [htok] at hr ⊢; exact keep r hr
    | number s => simp only [htok] at hr ⊢; exact keep r hr
    | ident x =>
      simp only [htok] at hr ⊢
      by_cases hh : t.hide.contains x = true
      · rw [if_pos hh] at hr ⊢; exact keep r hr
      · rw [if_neg hh] at hr ⊢
        cases hl : lookupMacro env x with
        | none => simp only [hl] at hr ⊢; exact keep r hr
        | some mac =>
          cases mac with
          | object n body => simp only [hl] at hr ⊢; exact h _ _ hr
          | function m =>
            simp only [hl] at hr ⊢
            cases ts with
            | nil => exact hr
            | cons p ts' =>
              simp only at hr ⊢
              by_cases hp : p.tok = .punct "("
              · rw [if_pos hp] at hr ⊢
                cases hc : collectArgs 0 [] [] ts' with
                | none => simp [hc] at hr
                | some res =>
                  obtain ⟨read, closeHide, rest⟩ := res
                  simp only [hc] at hr ⊢
                  generalize (if (m.params.isEmpty && read == [[]]) = true then [] else read)
                    = actuals at hr ⊢
                  by_cases hlen : actuals.length = m.params.length
                  · rw [if_pos hlen] at hr ⊢
                    cases he : expandEach r1 actuals with
                    | none => simp [he] at hr
                    | some es =>
                      simp only [he] at hr
                      rw [expandEach_mono r1 r2 h _ es he]
                      exact h _ _ hr
                  · rw [if_neg hlen] at hr
                    simp at hr
              · rw [if_neg hp] at hr ⊢
                exact keep r hr

/-- More fuel does not change a result. -/
theorem expandToks_mono (env : List Macro) :
    ∀ (fuel extra : Nat) (ts r : List PTok),
      expandToks env fuel ts = some r → expandToks env (fuel + extra) ts = some r := by
  have step : ∀ (fuel : Nat) (ts r : List PTok),
      expandToks env fuel ts = some r → expandToks env (fuel + 1) ts = some r := by
    intro fuel
    induction fuel with
    | zero =>
      intro ts r h
      exact scan_mono env _ _ (fun _ _ hn => by simp at hn) ts r h
    | succ fuel ih =>
      intro ts r h
      exact scan_mono env _ _ ih ts r h
  intro fuel extra
  induction extra with
  | zero => intro ts r h; exact h
  | succ extra ih => intro ts r h; exact step _ ts r (ih ts r h)

/-- More fuel does not change the tokens that come out. -/
theorem preprocess_mono (env : List Macro) (fuel extra : Nat) (ts r : List Tok)
    (h : preprocess env fuel ts = some r) : preprocess env (fuel + extra) ts = some r := by
  simp only [preprocess] at h ⊢
  cases he : expandToks env fuel (ts.map PTok.plain) with
  | none => simp [he] at h
  | some r' =>
    rw [he] at h
    rw [expandToks_mono env fuel extra _ r' he]
    exact h


/-- An expansion of each argument gives as many results as there are arguments. -/
theorem expandEach_length (expander : List PTok → Option (List PTok)) :
    ∀ (as es : List (List PTok)), expandEach expander as = some es → es.length = as.length := by
  intro as
  induction as with
  | nil => intro es h; simp [expandEach] at h; simp [← h]
  | cons a as ih =>
    intro es h
    simp only [expandEach] at h
    split at h
    · rename_i e es' _ hes
      simp only [Option.some.injEq] at h
      rw [← h]
      simp [ih es' hes]
    · simp at h

/-- Arguments without macro name expand to themselves. -/
theorem expandEach_plain (env : List Macro) (fuel : Nat) :
    ∀ (as : List (List PTok)), (∀ a ∈ as, ∀ t ∈ a, isMacroName env t.tok = false) →
      expandEach (expandToks env fuel) as = some as := by
  intro as
  induction as with
  | nil => intro _; rfl
  | cons a as ih =>
    intro h
    have h1 := expandToks_plain env fuel a (h a (List.mem_cons_self _ _))
    have h2 := ih (fun x hx => h x (List.mem_cons_of_mem _ hx))
    simp [expandEach, h1, h2]

/-- The argument found for a parameter is one of the arguments. -/
theorem lookup_zip_mem (x : String) :
    ∀ (ps : List String) (es : List (List PTok)) (e : List PTok),
      (ps.zip es).lookup x = some e → e ∈ es := by
  intro ps
  induction ps with
  | nil => intro es e h; simp [List.lookup] at h
  | cons p ps ih =>
    intro es e h
    cases es with
    | nil => simp [List.lookup] at h
    | cons e' es =>
      simp only [List.zip_cons_cons, List.lookup] at h
      split at h
      · simp only [Option.some.injEq] at h
        simp [h]
      · exact List.mem_cons_of_mem _ (ih es e h)

/-- With as many arguments as parameters, only a name that is no parameter finds
no argument. -/
theorem lookup_zip_none (x : String) :
    ∀ (ps : List String) (es : List (List PTok)), es.length = ps.length →
      (ps.zip es).lookup x = none → ps.contains x = false := by
  intro ps
  induction ps with
  | nil => intro es _ _; rfl
  | cons p ps ih =>
    intro es hlen h
    cases es with
    | nil => simp at hlen
    | cons e' es =>
      simp only [List.zip_cons_cons, List.lookup] at h
      split at h
      · simp at h
      · rename_i hne
        have := ih es (by simpa using hlen) h
        simp only [List.contains_cons, Bool.or_eq_false_iff]
        exact ⟨hne, this⟩

/-- A replacement has no macro name left when the expanded arguments have none
and the replacement list's own identifiers are no macro names. -/
theorem replace_free (env : List Macro) (m : MacroDef) (expanded : List (List PTok))
    (hlen : expanded.length = m.params.length)
    (hown : ∀ x ∈ m.ownIdents, isMacroName env (.ident x) = false)
    (hexp : ∀ e ∈ expanded, ∀ t ∈ e, isMacroName env t.tok = false) :
    ∀ t ∈ m.replace expanded, isMacroName env t.tok = false := by
  intro t ht
  simp only [MacroDef.replace, List.mem_flatMap] at ht
  obtain ⟨b, hb, htb⟩ := ht
  cases b with
  | ident x =>
    simp only at htb
    cases hl : (m.params.zip expanded).lookup x with
    | some e =>
      rw [hl] at htb
      exact hexp e (lookup_zip_mem x _ _ e hl) t (by simpa using htb)
    | none =>
      rw [hl] at htb
      have hx := lookup_zip_none x _ _ hlen hl
      have ht' : t = PTok.plain (.ident x) := by simpa using htb
      rw [ht']
      apply hown
      simp only [MacroDef.ownIdents, List.mem_filterMap]
      have hx' : x ∉ m.params := by simpa using hx
      exact ⟨.ident x, hb, by simp [hx']⟩
  | punct s =>
    have ht' : t = PTok.plain (.punct s) := by simpa using htb
    rw [ht']; rfl
  | number s =>
    have ht' : t = PTok.plain (.number s) := by simpa using htb
    rw [ht']; rfl

/-- The replacement of `IComTest_QueryInterface` with 3 expanded arguments is the call of slot
`QueryInterface` through the first of them, passing all of them in order. -/
theorem replace_QueryInterface (expanded : List (List PTok)) (h : expanded.length = 3) :
    (IComTest_QueryInterface.replace expanded).map PTok.tok
      = vtblCall ((expanded.headD []).map PTok.tok) "QueryInterface"
          (expanded.map (List.map PTok.tok)) := by
  rcases expanded with _ | ⟨e0, _ | ⟨e1, _ | ⟨e2, _ | ⟨extra, tail⟩⟩⟩⟩ <;>
    simp [List.length] at h
  simp [MacroDef.replace, IComTest_QueryInterface, vtblCall, List.lookup, commaSeparated, PTok.plain]

/-- The replacement of `IComTest_AddRef` with 1 expanded argument is the call of slot
`AddRef` through the first of them, passing all of them in order. -/
theorem replace_AddRef (expanded : List (List PTok)) (h : expanded.length = 1) :
    (IComTest_AddRef.replace expanded).map PTok.tok
      = vtblCall ((expanded.headD []).map PTok.tok) "AddRef"
          (expanded.map (List.map PTok.tok)) := by
  rcases expanded with _ | ⟨e0, _ | ⟨extra, tail⟩⟩ <;>
    simp [List.length] at h
  simp [MacroDef.replace, IComTest_AddRef, vtblCall, List.lookup, commaSeparated, PTok.plain]

/-- The replacement of `IComTest_Release` with 1 expanded argument is the call of slot
`Release` through the first of them, passing all of them in order. -/
theorem replace_Release (expanded : List (List PTok)) (h : expanded.length = 1) :
    (IComTest_Release.replace expanded).map PTok.tok
      = vtblCall ((expanded.headD []).map PTok.tok) "Release"
          (expanded.map (List.map PTok.tok)) := by
  rcases expanded with _ | ⟨e0, _ | ⟨extra, tail⟩⟩ <;>
    simp [List.length] at h
  simp [MacroDef.replace, IComTest_Release, vtblCall, List.lookup, commaSeparated, PTok.plain]

/-- The replacement of `IComTest_GetTypeInfoCount` with 2 expanded arguments is the call of slot
`GetTypeInfoCount` through the first of them, passing all of them in order. -/
theorem replace_GetTypeInfoCount (expanded : List (List PTok)) (h : expanded.length = 2) :
    (IComTest_GetTypeInfoCount.replace expanded).map PTok.tok
      = vtblCall ((expanded.headD []).map PTok.tok) "GetTypeInfoCount"
          (expanded.map (List.map PTok.tok)) := by
  rcases expanded with _ | ⟨e0, _ | ⟨e1, _ | ⟨extra, tail⟩⟩⟩ <;>
    simp [List.length] at h
  simp [MacroDef.replace, IComTest_GetTypeInfoCount, vtblCall, List.lookup, commaSeparated, PTok.plain]

/-- The replacement of `IComTest_GetTypeInfo` with 4 expanded arguments is the call of slot
`GetTypeInfo` through the first of them, passing all of them in order. -/
theorem replace_GetTypeInfo (expanded : List (List PTok)) (h : expanded.length = 4) :
    (IComTest_GetTypeInfo.replace expanded).map PTok.tok
      = vtblCall ((expanded.headD []).map PTok.tok) "GetTypeInfo"
          (expanded.map (List.map PTok.tok)) := by
  rcases expanded with _ | ⟨e0, _ | ⟨e1, _ | ⟨e2, _ | ⟨e3, _ | ⟨extra, tail⟩⟩⟩⟩⟩ <;>
    simp [List.length] at h
  simp [MacroDef.replace, IComTest_GetTypeInfo, vtblCall, List.lookup, commaSeparated, PTok.plain]

/-- The replacement of `IComTest_GetIDsOfNames` with 6 expanded arguments is the call of slot
`GetIDsOfNames` through the first of them, passing all of them in order. -/
theorem replace_GetIDsOfNames (expanded : List (List PTok)) (h : expanded.length = 6) :
    (IComTest_GetIDsOfNames.replace expanded).map PTok.tok
      = vtblCall ((expanded.headD []).map PTok.tok) "GetIDsOfNames"
          (expanded.map (List.map PTok.tok)) := by
  rcases expanded with _ | ⟨e0, _ | ⟨e1, _ | ⟨e2, _ | ⟨e3, _ | ⟨e4, _ | ⟨e5, _ | ⟨extra, tail⟩⟩⟩⟩⟩⟩⟩ <;>
    simp [List.length] at h
  simp [MacroDef.replace, IComTest_GetIDsOfNames, vtblCall, List.lookup, commaSeparated, PTok.plain]

/-- The replacement of `IComTest_Invoke` with 9 expanded arguments is the call of slot
`Invoke` through the first of them, passing all of them in order. -/
theorem replace_Invoke (expanded : List (List PTok)) (h : expanded.length = 9) :
    (IComTest_Invoke.replace expanded).map PTok.tok
      = vtblCall ((expanded.headD []).map PTok.tok) "Invoke"
          (expanded.map (List.map PTok.tok)) := by
  rcases expanded with _ | ⟨e0, _ | ⟨e1, _ | ⟨e2, _ | ⟨e3, _ | ⟨e4, _ | ⟨e5, _ | ⟨e6, _ | ⟨e7, _ | ⟨e8, _ | ⟨extra, tail⟩⟩⟩⟩⟩⟩⟩⟩⟩⟩ <;>
    simp [List.length] at h
  simp [MacroDef.replace, IComTest_Invoke, vtblCall, List.lookup, commaSeparated, PTok.plain]

/-- The replacement of `IComTest_ComTestMethod` with 4 expanded arguments is the call of slot
`ComTestMethod` through the first of them, passing all of them in order. -/
theorem replace_ComTestMethod (expanded : List (List PTok)) (h : expanded.length = 4) :
    (IComTest_ComTestMethod.replace expanded).map PTok.tok
      = vtblCall ((expanded.headD []).map PTok.tok) "ComTestMethod"
          (expanded.map (List.map PTok.tok)) := by
  rcases expanded with _ | ⟨e0, _ | ⟨e1, _ | ⟨e2, _ | ⟨e3, _ | ⟨extra, tail⟩⟩⟩⟩⟩ <;>
    simp [List.length] at h
  simp [MacroDef.replace, IComTest_ComTestMethod, vtblCall, List.lookup, commaSeparated, PTok.plain]

/-- A helper whose replacement is the call of `slot` and whose replacement list
has no other identifiers of its own than `lpVtbl` and `slot`: once its arguments
are expanded, with no macro name left in them, its invocation expands to the call
of `slot` through the first expanded argument, passing all of them in order. -/
theorem helper_invocation (env : List Macro) (fuel : Nat) (m : MacroDef) (slot : String)
    (args : List (List Tok)) (expanded : List (List PTok))
    (hrep : ∀ es : List (List PTok), es.length = m.params.length →
      (m.replace es).map PTok.tok
        = vtblCall ((es.headD []).map PTok.tok) slot (es.map (List.map PTok.tok)))
    (hown : m.ownIdents = ["lpVtbl", slot])
    (hpar : m.params ≠ [])
    (hm : lookupMacro env m.name = some (.function m))
    (hl : isMacroName env (.ident "lpVtbl") = false)
    (hs : isMacroName env (.ident slot) = false)
    (hlen : args.length = m.params.length)
    (hargs : ∀ a ∈ args, isArgument a = true)
    (hexp : expandEach (expandToks env fuel) (args.map (List.map PTok.plain)) = some expanded)
    (hfree : ∀ e ∈ expanded, ∀ t ∈ e, isMacroName env t.tok = false) :
    preprocess env (fuel + 1) (invocation m.name args)
      = some (vtblCall ((expanded.headD []).map PTok.tok) slot
          (expanded.map (List.map PTok.tok))) := by
  have hne : args ≠ [] := by
    intro h
    rw [h] at hlen
    exact hpar (List.length_eq_zero.1 hlen.symm)
  have hel : expanded.length = m.params.length := by
    rw [expandEach_length _ _ _ hexp, List.length_map, hlen]
  have hown' : ∀ x ∈ m.ownIdents, isMacroName env (.ident x) = false := by
    intro x hx
    rw [hown] at hx
    simp only [List.mem_cons, List.mem_singleton, List.not_mem_nil, or_false] at hx
    rcases hx with rfl | rfl
    · exact hl
    · exact hs
  rw [preprocess_invocation env fuel m args expanded hm hne hlen hargs hexp
    (replace_free env m expanded hel hown' hfree), hrep expanded hel]

/-- C9: there is one helper per slot of the table, in the same order, named
`IComTest_` plus the slot's name and with the slot's parameter names (receiver
included) as its parameters; the helpers are defined exactly when the C form is
compiled with `COBJMACROS`, and the header's own macros then leave `lpVtbl` and
the slot names alone.  Under complete macro replacement (arguments expanded
first, the result rescanned), in any environment that has the header's
definition of the helper and no macro named `lpVtbl` or like the slot, a helper
invoked with as many arguments as the slot has parameters expands, with enough
fuel and then with any more, to `( (This)->lpVtbl -> slot(This,a1,...,an) )` for
its own slot, where `This,a1,...,an` are the expanded arguments (no macro name
left in them), once each, in the order given; the arguments themselves when they
contain no macro name.  In particular
`IComTest_ComTestMethod(This,radius,comment,ReturnVal)` calls slot
`ComTestMethod` with `(This,radius,comment,ReturnVal)`. -/
theorem helper_macros_dispatch :
    IComTest_macros.map MacroDef.name
        = IComTestVtbl.slots.map (fun s => helperName s.name)
    ∧ IComTest_macros.map MacroDef.params
        = IComTestVtbl.slots.map (fun s => s.params.map Param.name)
    ∧ (∀ cfg : Config, definedMacros (definitions_h cfg)
        = if cfg.COBJMACROS && !(cfg.cplusplus && !cfg.CINTERFACE) then IComTest_macros else [])
    ∧ (∀ cfg : Config, cfg.COBJMACROS = true → (cfg.cplusplus && !cfg.CINTERFACE) = false →
        (IComTest_macros.zip IComTestVtbl.slots).all (fun ms =>
          lookupMacro (definitions_h_macros cfg) ms.1.name == some (.function ms.1)
          && !isMacroName (definitions_h_macros cfg) (.ident "lpVtbl")
          && !isMacroName (definitions_h_macros cfg) (.ident ms.2.name)) = true)
    ∧ (∀ ms ∈ IComTest_macros.zip IComTestVtbl.slots,
        ∀ (env : List Macro) (fuel : Nat) (args : List (List Tok))
          (expanded : List (List PTok)),
        lookupMacro env ms.1.name = some (.function ms.1) →
        isMacroName env (.ident "lpVtbl") = false →
        isMacroName env (.ident ms.2.name) = false →
        args.length = ms.2.params.length →
        (∀ a ∈ args, isArgument a = true) →
        expandEach (expandToks env fuel) (args.map (List.map PTok.plain)) = some expanded →
        (∀ e ∈ expanded, ∀ t ∈ e, isMacroName env t.tok = false) →
        ∀ extra : Nat, preprocess env (fuel + 1 + extra) (invocation ms.1.name args)
          = some (vtblCall ((expanded.headD []).map PTok.tok) ms.2.name
              (expanded.map (List.map PTok.tok))))
    ∧ (∀ ms ∈ IComTest_macros.zip IComTestVtbl.slots,
        ∀ (env : List Macro) (fuel : Nat) (args : List (List Tok)),
        lookupMacro env ms.1.name = some (.function ms.1) →
        isMacroName env (.ident "lpVtbl") = false →
        isMacroName env (.ident ms.2.name) = false →
        args.length = ms.2.params.length →
        (∀ a ∈ args, isArgument a = true) →
        (∀ a ∈ args, ∀ t ∈ a, isMacroName env t = false) →
        ∀ extra : Nat, preprocess env (fuel + 1 + extra) (invocation ms.1.name args)
          = some (vtblCall (args.headD []) ms.2.name args))
    ∧ (∀ (env : List Macro) (fuel : Nat) (This radius comment ReturnVal : List Tok),
        lookupMacro env "IComTest_ComTestMethod" = some (.function IComTest_ComTestMethod) →
        isMacroName env (.ident "lpVtbl") = false →
        isMacroName env (.ident "ComTestMethod") = false →
        (∀ a ∈ [This, radius, comment, ReturnVal],
          isArgument a = true ∧ ∀ t ∈ a, isMacroName env t = false) →
        preprocess env (fuel + 1)
            (.ident "IComTest_ComTestMethod" :: .punct "(" ::
              (This ++ [.punct ","] ++ radius ++ [.punct ","] ++ comment ++ [.punct ","]
                ++ ReturnVal ++ [.punct ")"]))
          = some ([.punct "(", .punct "("] ++ This
              ++ [.punct ")", .punct "->", .ident "lpVtbl", .punct "->",
                  .ident "ComTestMethod", .punct "("]
              ++ This ++ [.punct ","] ++ radius ++ [.punct ","] ++ comment
              ++ [.punct ","] ++ ReturnVal ++ [.punct ")", .punct ")"])) := by
  have general : ∀ ms ∈ IComTest_macros.zip IComTestVtbl.slots,
      ∀ (env : List Macro) (fuel : Nat) (args : List (List Tok))
        (expanded : List (List PTok)),
      lookupMacro env ms.1.name = some (.function ms.1) →
      isMacroName env (.ident "lpVtbl") = false →
      isMacroName env (.ident ms.2.name) = false →
      args.length = ms.2.params.length →
      (∀ a ∈ args, isArgument a = true) →
      expandEach (expandToks env fuel) (args.map (List.map PTok.plain)) = some expanded →
      (∀ e ∈ expanded, ∀ t ∈ e, isMacroName env t.tok = false) →
      ∀ extra : Nat, preprocess env (fuel + 1 + extra) (invocation ms.1.name args)
        = some (vtblCall ((expanded.headD []).map PTok.tok) ms.2.name
            (expanded.map (List.map PTok.tok))) := by
    intro ms hms env fuel args expanded hm hl hs hlen hargs hexp hfree extra
    apply preprocess_mono
    simp only [IComTest_macros, IComTestVtbl, List.zip_cons_cons, List.zip_nil_right,
      List.mem_cons, List.mem_singleton, List.not_mem_nil, or_false] at hms
    rcases hms with rfl | rfl | rfl | rfl | rfl | rfl | rfl | rfl
    · exact helper_invocation env fuel _ _ args expanded replace_QueryInterface
        (by decide) (by decide) hm hl hs hlen hargs hexp hfree
    · exact helper_invocation env fuel _ _ args expanded replace_AddRef
        (by decide) (by decide) hm hl hs hlen hargs hexp hfree
    · exact helper_invocation env fuel _ _ args expanded replace_Release
        (by decide) (by decide) hm hl hs hlen hargs hexp hfree
    · exact helper_invocation env fuel _ _ args expanded replace_GetTypeInfoCount
        (by decide) (by decide) hm hl hs hlen hargs hexp hfree
    · exact helper_invocation env fuel _ _ args expanded replace_GetTypeInfo
        (by decide) (by decide) hm hl hs hlen hargs hexp hfree
    · exact helper_invocation env fuel _ _ args expanded replace_GetIDsOfNames
        (by decide) (by decide) hm hl hs hlen hargs hexp hfree
    · exact helper_invocation env fuel _ _ args expanded replace_Invoke
        (by decide) (by decide) hm hl hs hlen hargs hexp hfree
    · exact helper_invocation env fuel _ _ args expanded replace_ComTestMethod
        (by decide) (by decide) hm hl hs hlen hargs hexp hfree
  have direct : ∀ ms ∈ IComTest_macros.zip IComTestVtbl.slots,
      ∀ (env : List Macro) (fuel : Nat) (args : List (List Tok)),
      lookupMacro env ms.1.name = some (.function ms.1) →
      isMacroName env (.ident "lpVtbl") = false →
      isMacroName env (.ident ms.2.name) = false →
      args.length = ms.2.params.length →
      (∀ a ∈ args, isArgument a = true) →
      (∀ a ∈ args, ∀ t ∈ a, isMacroName env t = false) →
      ∀ extra : Nat, preprocess env (fuel + 1 + extra) (invocation ms.1.name args)
        = some (vtblCall (args.headD []) ms.2.name args) := by
    intro ms hms env fuel args hm hl hs hlen hargs hfree extra
    have hfree' : ∀ e ∈ args.map (List.map PTok.plain), ∀ t ∈ e,
        isMacroName env t.tok = false := by
      intro e he t ht
      obtain ⟨a, ha, rfl⟩ := List.mem_map.1 he
      obtain ⟨u, hu, rfl⟩ := List.mem_map.1 ht
      exact hfree a ha u hu
    have h := general ms hms env fuel args _ hm hl hs hlen hargs
      (expandEach_plain env fuel _ hfree') hfree' extra
    have hid : ∀ a : List Tok, (a.map PTok.plain).map PTok.tok = a := by
      intro a
      induction a with
      | nil => rfl
      | cons t a ih => simp [PTok.plain, ih]
    have hmap : (args.map (List.map PTok.plain)).map (List.map PTok.tok) = args := by
      induction args with
      | nil => rfl
      | cons a as _ => simp [PTok.plain, Function.comp_def]
    have hhead : ((args.map (List.map PTok.plain)).headD []).map PTok.tok = args.headD [] := by
      cases args with
      | nil => rfl
      | cons a as => simpa using hid a
    rw [hmap, hhead] at h
    exact h
  refine ⟨by decide, by decide, ?_, ?_, general, direct, ?_⟩
  · rintro ⟨a, b, c⟩
    cases a <;> cases b <;> cases c <;> decide
  · rintro ⟨a, b, c⟩
    cases a <;> cases b <;> cases c <;> decide
  · intro env fuel This radius comment ReturnVal hm hl hs hall
    have h := direct (IComTest_ComTestMethod, _) (by
        simp only [IComTest_macros, IComTestVtbl, List.zip_cons_cons, List.zip_nil_right,
          List.mem_cons, List.mem_singleton, List.not_mem_nil, or_false]
        iterate 7 right
        rfl) env fuel
      [This, radius, comment, ReturnVal] hm hl hs rfl (fun a ha => (hall a ha).1)
      (fun a ha => (hall a ha).2) 0
    simpa [invocation, vtblCall, commaSeparated] using h

/-- C9 at a nested invocation, in the header's own environment:
`IComTest_Release(IComTest_AddRef(p))` expands to
`( (( (p)->lpVtbl -> AddRef(p) ))->lpVtbl -> Release(( (p)->lpVtbl -> AddRef(p) )) )`,
the inner helper expanded before it is passed on. -/
theorem helper_macros_dispatch_witness :
    preprocess (definitions_h_macros ⟨false, false, true⟩) 2
        [.ident "IComTest_Release", .punct "(",
          .ident "IComTest_AddRef", .punct "(", .ident "p", .punct ")", .punct ")"]
      = some [.punct "(", .punct "(",
          .punct "(", .punct "(", .ident "p", .punct ")", .punct "->", .ident "lpVtbl",
          .punct "->", .ident "AddRef", .punct "(", .ident "p", .punct ")", .punct ")",
          .punct ")", .punct "->", .ident "lpVtbl", .punct "->", .ident "Release", .punct "(",
          .punct "(", .punct "(", .ident "p", .punct ")", .punct "->", .ident "lpVtbl",
          .punct "->", .ident "AddRef", .punct "(", .ident "p", .punct ")", .punct ")",
          .punct ")", .punct ")"] :=
  helper_macros_dispatch.2.2.2.2.1
    ((IComTest_macros.zip IComTestVtbl.slots).get ⟨2, by decide⟩) (List.get_mem _ _ _)
    (definitions_h_macros ⟨false, false, true⟩) 1
    [[.ident "IComTest_AddRef", .punct "(", .ident "p", .punct ")"]]
    [(vtblCall [.ident "p"] "AddRef" [[.ident "p"]]).map fun t => ⟨t, ["IComTest_AddRef"]⟩]
    (by decide) (by decide) (by decide) (by decide) (by decide) (by decide) (by decide) 0

/-! ## Acceptance of arguments by the declared types -/

/-- C7: `radius = 0.0` and `comment = ""` are accepted by the declared types of
`ComTestMethod`.  Its inputs are a `double` and a `BSTR`, neither narrowed by a
`range` or `size_is` attribute (which the header does use elsewhere, on the
inputs of `GetIDsOfNames`), so every pair of a 64-bit `double` and a string of
16-bit units is accepted, the pair of the zero pattern and the empty string among
them. -/
theorem ComTestMethod_accepts_zero_and_empty :
    ∃ cpp c,
      IComTest.method? "ComTestMethod" = some cpp
      ∧ IComTestVtbl.slot? "ComTestMethod" = some c
      ∧ cpp.inputs.map Param.type = [.named "double", .named "BSTR"]
      ∧ c.inputs.map Param.type = [.named "double", .named "BSTR"]
      ∧ cpp.inputs.any Param.narrowed = false
      ∧ c.inputs.any Param.narrowed = false
      ∧ IComTestVtbl.slots.any (fun s => s.inputs.any Param.narrowed) = true
      ∧ cpp.acceptsInputs [zeroDouble, emptyBSTR] = true
      ∧ c.acceptsInputs [zeroDouble, emptyBSTR] = true
      ∧ (∀ (bits : Nat) (units : List Nat), bits < 2 ^ 64 → (∀ u ∈ units, u < 2 ^ 16) →
          cpp.acceptsInputs [.double bits, .BSTR units] = true
          ∧ c.acceptsInputs [.double bits, .BSTR units] = true)
      ∧ cpp.acceptsInputs [emptyBSTR, zeroDouble] = false
      ∧ cpp.acceptsInputs [zeroDouble] = false := by
  refine ⟨_, _, rfl, rfl, by decide, by decide, by decide, by decide, by decide, by decide,
    by decide, ?_, by decide, by decide⟩
  intro bits units hbits hunits
  have hb : bits < 18446744073709551616 := by simpa using hbits
  have hu : ∀ u ∈ units, u < 65536 := by simpa using hunits
  constructor <;>
    simp [Method.acceptsInputs, Method.inputs, Value.hasType] <;>
    exact ⟨hb, hu⟩

/-- C7 at another pair of inputs: radius `1.0` (pattern `0x3FF0000000000000`) and
the comment "hi" are accepted as well. -/
theorem ComTestMethod_accepts_witness :
    ∃ m, IComTest.method? "ComTestMethod" = some m
      ∧ m.acceptsInputs [.double 0x3FF0000000000000, .BSTR [104, 105]] = true := by
  obtain ⟨cpp, _, hcpp, _, _, _, _, _, _, _, _, hall, _⟩ := ComTestMethod_accepts_zero_and_empty
  exact ⟨cpp, hcpp, (hall 0x3FF0000000000000 [104, 105] (by decide) (by decide)).1⟩

/-! ## The textual round trip -/

/-- The digit written for a value below 16 is a hexadecimal digit, is not a hyphen,
and reads back as that value. -/
theorem hexDigit_spec : ∀ d, d < 16 →
    isHexDigit (hexDigit d) = true ∧ hexDigit d ≠ '-' ∧ hexValue (hexDigit d) = d := by
  decide

/-- Writing `w` digits gives `w` characters. -/
theorem hexText_length (w n : Nat) : (hexText w n).length = w := by
  induction w generalizing n with
  | zero => rfl
  | succ w ih => simp [hexText, ih]

/-- Every character written by `hexText` is a hexadecimal digit and not a hyphen. -/
theorem hexText_digits (w n : Nat) :
    ∀ c ∈ hexText w n, isHexDigit c = true ∧ c ≠ '-' := by
  induction w generalizing n with
  | zero => intro c hc; simp [hexText] at hc
  | succ w ih =>
    intro c hc
    simp only [hexText, List.mem_append, List.mem_singleton] at hc
    rcases hc with hc | rfl
    · exact ih _ c hc
    · have := hexDigit_spec (n % 16) (Nat.mod_lt _ (by decide))
      exact ⟨this.1, this.2.1⟩

/-- A text without hyphen is a single group. -/
theorem hyphenGroups_plain (g : List Char) (hg : ∀ c ∈ g, c ≠ '-') :
    hyphenGroups g = [g] := by
  induction g with
  | nil => rfl
  | cons c g ih =>
    have hc : c ≠ '-' := hg c (List.mem_cons_self _ _)
    have ih2 := ih (fun x hx => hg x (List.mem_cons_of_mem _ hx))
    simp [hyphenGroups, hc, ih2]

/-- A hyphen after a run without hyphen closes that run as the first group. -/
theorem hyphenGroups_group (g rest : List Char) (hg : ∀ c ∈ g, c ≠ '-') :
    hyphenGroups (g ++ '-' :: rest) = g :: hyphenGroups rest := by
  induction g with
  | nil => simp [hyphenGroups]
  | cons c g ih =>
    have hc : c ≠ '-' := hg c (List.mem_cons_self _ _)
    have ih2 := ih (fun x hx => hg x (List.mem_cons_of_mem _ hx))
    simp [hyphenGroups, hc, ih2]

/-- Reading digits from an accumulator shifts it by the digits read. -/
theorem foldl_hex (cs : List Char) (acc : Nat) :
    cs.foldl (fun acc c => 16 * acc + hexValue c) acc
      = acc * 16 ^ cs.length + hexNumber cs := by
  induction cs generalizing acc with
  | nil => simp [hexNumber]
  | cons c cs ih =>
    simp only [List.foldl_cons, List.length_cons, hexNumber]
    rw [ih, ih (16 * 0 + hexValue c)]
    ring

/-- Reading two runs of digits in a row. -/
theorem hexNumber_append (a b : List Char) :
    hexNumber (a ++ b) = hexNumber a * 16 ^ b.length + hexNumber b := by
  unfold hexNumber
  rw [List.foldl_append, foldl_hex]
  rfl

/-- Reading back the `w` digits written for `n` gives `n` modulo `16 ^ w`. -/
theorem hexNumber_hexText (w n : Nat) : hexNumber (hexText w n) = n % 16 ^ w := by
  induction w generalizing n with
  | zero => simp [hexText, hexNumber, Nat.mod_one]
  | succ w ih =>
    have hd := (hexDigit_spec (n % 16) (Nat.mod_lt _ (by decide))).2.2
    rw [hexText, hexNumber_append, ih]
    have h1 : hexNumber [hexDigit (n % 16)] = n % 16 := by
      simp [hexNumber, hd]
    rw [h1]
    simp only [List.length_singleton, pow_one]
    rw [pow_succ', Nat.mod_mul]
    ring


/-- A text always has at least one group. -/
theorem hyphenGroups_ne_nil (l : List Char) : hyphenGroups l ≠ [] := by
  induction l with
  | nil => simp [hyphenGroups]
  | cons c cs ih =>
    unfold hyphenGroups
    split
    · simp
    · split <;> simp

/-- Joining the groups of a text with hyphens gives the text back. -/
theorem joinGroups_hyphenGroups (l : List Char) : joinGroups (hyphenGroups l) = l := by
  induction l with
  | nil => rfl
  | cons c cs ih =>
    unfold hyphenGroups
    split
    · rename_i hc
      cases hgs : hyphenGroups cs with
      | nil => exact absurd hgs (hyphenGroups_ne_nil cs)
      | cons g gs =>
        rw [hgs] at ih
        simp [joinGroups, ih, hc]
    · cases hgs : hyphenGroups cs with
      | nil => exact absurd hgs (hyphenGroups_ne_nil cs)
      | cons g gs =>
        rw [hgs] at ih
        cases gs with
        | nil => simp [joinGroups] at ih ⊢; exact ih
        | cons g2 gs2 => simp [joinGroups] at ih ⊢; exact ih

/-- A hexadecimal digit that is not lower-case has a value below 16 and is the
digit written for that value. -/
theorem upperHex_spec (c : Char) (h : isHexDigit c = true)
    (hu : ('a' ≤ c && c ≤ 'f') = false) :
    hexValue c < 16 ∧ hexDigit (hexValue c) = c := by
  have hc : Char.ofNat c.toNat = c := Char.ofNat_toNat c
  have key : ∀ n, n < 128 → isHexDigit (Char.ofNat n) = true →
      ('a' ≤ Char.ofNat n && Char.ofNat n ≤ 'f') = false →
      hexValue (Char.ofNat n) < 16 ∧ hexDigit (hexValue (Char.ofNat n)) = Char.ofNat n := by
    decide
  have hlt : c.toNat < 128 := by
    simp only [isHexDigit, Bool.or_eq_true, Bool.and_eq_true, decide_eq_true_eq] at h
    have : c ≤ 'f' := by
      rcases h with (h | h) | h
      · exact le_trans h.2 (by decide)
      · exact le_trans h.2 (by decide)
      · exact h.2
    have h2 : c.toNat ≤ 'f'.toNat := this
    have : 'f'.toNat = 102 := by decide
    omega
  rw [← hc] at h hu ⊢
  exact key _ hlt h hu


/-- The same for a character accepted by `isUpperHex`. -/
theorem upperHex_of (c : Char) (h : isUpperHex c = true) :
    hexValue c < 16 ∧ hexDigit (hexValue c) = c := by
  simp only [isUpperHex, Bool.and_eq_true, Bool.not_eq_true'] at h
  exact upperHex_spec c h.1 h.2

/-- A run of `k` digits writes a number below `16 ^ k`. -/
theorem hexNumber_lt (g : List Char) (hg : ∀ c ∈ g, isUpperHex c = true) :
    hexNumber g < 16 ^ g.length := by
  induction g using List.reverseRecOn with
  | nil => simp [hexNumber]
  | append_singleton g c ih =>
    have hc := (upperHex_of c (hg c (by simp))).1
    have ih2 := ih (fun x hx => hg x (by simp [hx]))
    rw [hexNumber_append]
    have h1 : hexNumber [c] = hexValue c := by simp [hexNumber]
    rw [h1]
    simp only [List.length_singleton, pow_one, List.length_append, pow_succ]
    omega

/-- Writing the number a run of upper-case digits reads as, on as many digits,
gives the run back. -/
theorem hexText_hexNumber (g : List Char) (hg : ∀ c ∈ g, isUpperHex c = true) :
    hexText g.length (hexNumber g) = g := by
  induction g using List.reverseRecOn with
  | nil => rfl
  | append_singleton g c ih =>
    have hc := upperHex_of c (hg c (by simp))
    have ih2 := ih (fun x hx => hg x (by simp [hx]))
    have h1 : hexNumber [c] = hexValue c := by simp [hexNumber]
    rw [hexNumber_append, h1]
    simp only [List.length_singleton, pow_one, List.length_append, hexText]
    have hdiv : (hexNumber g * 16 + hexValue c) / 16 = hexNumber g := by omega
    have hmod : (hexNumber g * 16 + hexValue c) % 16 = hexValue c := by omega
    rw [hdiv, hmod, ih2, hc.2]

/-- Decoding any well-formed identifier text written with upper-case digits and
encoding the value gives the text back. -/
theorem encode_decode (s : String) (h : isUuidText s = true)
    (hu : (uuidDigits s).all isUpperHex = true) :
    (decodeUuid s).map encodeUuid = some s := by
  have hjoin := joinGroups_hyphenGroups s.toList
  simp only [isUuidText, Bool.and_eq_true, beq_iff_eq] at h
  simp only [uuidDigits] at hu
  simp only [decodeUuid, isUuidText, uuidDigits]
  obtain ⟨hlen, -⟩ := h
  rcases hgs : hyphenGroups s.toList with
    _ | ⟨g1, _ | ⟨g2, _ | ⟨g3, _ | ⟨g4, _ | ⟨g5, _ | ⟨g6, t⟩⟩⟩⟩⟩⟩ <;>
    rw [hgs] at hlen <;> simp at hlen
  obtain ⟨l1, l2, l3, l4, l5⟩ := hlen
  rw [hgs] at hu hjoin
  simp only [List.flatten, List.append_nil, List.all_append, Bool.and_eq_true,
    List.all_eq_true] at hu
  obtain ⟨u1, u2, u3, u4, u5⟩ := hu
  have hvalid : ((List.map List.length [g1, g2, g3, g4, g5] == [8, 4, 4, 4, 12])
      && [g1, g2, g3, g4, g5].all fun g => g.all isHexDigit) = true := by
    have hx : ∀ c, isUpperHex c = true → isHexDigit c = true := by
      intro c hc
      simp only [isUpperHex, Bool.and_eq_true] at hc
      exact hc.1
    simp only [List.map_cons, List.map_nil, l1, l2, l3, l4, l5, beq_self_eq_true,
      List.all_cons, List.all_nil, Bool.and_true, Bool.and_eq_true, List.all_eq_true, true_and]
    exact ⟨fun c hc => hx c (u1 c hc), fun c hc => hx c (u2 c hc), fun c hc => hx c (u3 c hc),
      fun c hc => hx c (u4 c hc), fun c hc => hx c (u5 c hc)⟩
  rw [if_pos hvalid, Option.map_some']
  have b1 := hexNumber_lt g1 u1
  have b2 := hexNumber_lt g2 u2
  have b3 := hexNumber_lt g3 u3
  have b4 := hexNumber_lt g4 u4
  have b5 := hexNumber_lt g5 u5
  have t1 := hexText_hexNumber g1 u1
  have t2 := hexText_hexNumber g2 u2
  have t3 := hexText_hexNumber g3 u3
  have t4 := hexText_hexNumber g4 u4
  have t5 := hexText_hexNumber g5 u5
  rw [l1] at b1 t1
  rw [l2] at b2 t2
  rw [l3] at b3 t3
  rw [l4] at b4 t4
  rw [l5] at b5 t5
  have hv : hexNumber [g1, g2, g3, g4, g5].flatten
      = (((hexNumber g1 * 16 ^ 4 + hexNumber g2) * 16 ^ 4 + hexNumber g3) * 16 ^ 4
          + hexNumber g4) * 16 ^ 12 + hexNumber g5 := by
    simp only [List.flatten, List.append_nil, hexNumber_append, List.length_append,
      l2, l3, l4, l5]
    ring
  norm_num at b1 b2 b3 b4 b5 hv
  have c1 : hexNumber [g1, g2, g3, g4, g5].flatten / 2 ^ 96 % 2 ^ 32 = hexNumber g1 := by
    norm_num; omega
  have c2 : hexNumber [g1, g2, g3, g4, g5].flatten / 2 ^ 80 % 2 ^ 16 = hexNumber g2 := by
    norm_num; omega
  have c3 : hexNumber [g1, g2, g3, g4, g5].flatten / 2 ^ 64 % 2 ^ 16 = hexNumber g3 := by
    norm_num; omega
  have c4 : hexNumber [g1, g2, g3, g4, g5].flatten / 2 ^ 48 % 2 ^ 16 = hexNumber g4 := by
    norm_num; omega
  have c5 : hexNumber [g1, g2, g3, g4, g5].flatten % 2 ^ 48 = hexNumber g5 := by
    norm_num; omega
  have hs : s = String.mk s.toList := rfl
  rw [encodeUuid, c1, c2, c3, c4, c5, t1, t2, t3, t4, t5]
  rw [hs, ← hjoin]
  simp [joinGroups]

/-- Encoding any 128-bit value and decoding the text gives the value back. -/
theorem decode_encode (v : Nat) (hv : v < 2 ^ 128) :
    decodeUuid (encodeUuid v) = some v := by
  have e1 := hexText_digits 8 (v / 2 ^ 96 % 2 ^ 32)
  have e2 := hexText_digits 4 (v / 2 ^ 80 % 2 ^ 16)
  have e3 := hexText_digits 4 (v / 2 ^ 64 % 2 ^ 16)
  have e4 := hexText_digits 4 (v / 2 ^ 48 % 2 ^ 16)
  have e5 := hexText_digits 12 (v % 2 ^ 48)
  have groups : hyphenGroups (encodeUuid v).toList
      = [hexText 8 (v / 2 ^ 96 % 2 ^ 32), hexText 4 (v / 2 ^ 80 % 2 ^ 16),
          hexText 4 (v / 2 ^ 64 % 2 ^ 16), hexText 4 (v / 2 ^ 48 % 2 ^ 16),
          hexText 12 (v % 2 ^ 48)] := by
    show hyphenGroups (_ ++ '-' :: (_ ++ '-' :: (_ ++ '-' :: (_ ++ '-' :: _)))) = _
    rw [hyphenGroups_group _ _ (fun c hc => (e1 c hc).2),
      hyphenGroups_group _ _ (fun c hc => (e2 c hc).2),
      hyphenGroups_group _ _ (fun c hc => (e3 c hc).2),
      hyphenGroups_group _ _ (fun c hc => (e4 c hc).2),
      hyphenGroups_plain _ (fun c hc => (e5 c hc).2)]
  have valid : isUuidText (encodeUuid v) = true := by
    simp only [isUuidText, groups, List.map_cons, List.map_nil, hexText_length,
      List.all_cons, List.all_nil, Bool.and_true, Bool.and_eq_true, beq_self_eq_true,
      List.all_eq_true, true_and]
    exact ⟨fun c hc => (e1 c hc).1, fun c hc => (e2 c hc).1, fun c hc => (e3 c hc).1,
      fun c hc => (e4 c hc).1, fun c hc => (e5 c hc).1⟩
  have value : hexNumber (uuidDigits (encodeUuid v)) = v := by
    simp only [uuidDigits, groups, List.flatten, List.append_nil]
    simp only [hexNumber_append, hexNumber_hexText, List.length_append, hexText_length]
    norm_num
    omega
  simp [decodeUuid, valid, value]

/-- C6: for the interface identifier and for the class identifier, the text in
the header decodes to a 128-bit value, encoding that value gives back the text of
the header character for character (upper-case digits included), and decoding the
encoded text gives back the value.  Both directions hold beyond the two
identifiers: for every 128-bit value, and for every well-formed text in upper case. -/
theorem identifier_text_round_trip :
    (∃ v, v < 2 ^ 128
      ∧ decodeUuid IComTest.uuid = some v
      ∧ encodeUuid v = IComTest.uuid
      ∧ decodeUuid (encodeUuid v) = some v
      ∧ (decodeUuid IComTest.uuid).map encodeUuid = some IComTest.uuid
      ∧ v = 0x1B31B683F0AA4E718F50F2D2E5E9E210)
    ∧ (∃ v, v < 2 ^ 128
      ∧ decodeUuid ComTest_uuid = some v
      ∧ encodeUuid v = ComTest_uuid
      ∧ decodeUuid (encodeUuid v) = some v
      ∧ (decodeUuid ComTest_uuid).map encodeUuid = some ComTest_uuid
      ∧ v = 0x71AD0B2FE5D04272A4FD18F707D5E0D6)
    ∧ uuidOf (definitions_h ⟨true, false, false⟩) "IComTest" = some IComTest.uuid
    ∧ uuidOf (definitions_h ⟨true, false, false⟩) "ComTest" = some ComTest_uuid
    ∧ (∀ v, v < 2 ^ 128 → decodeUuid (encodeUuid v) = some v)
    ∧ (∀ s, isUuidText s = true → (uuidDigits s).all isUpperHex = true →
        (decodeUuid s).map encodeUuid = some s) := by
  refine ⟨⟨0x1B31B683F0AA4E718F50F2D2E5E9E210, ?_⟩, ⟨0x71AD0B2FE5D04272A4FD18F707D5E0D6, ?_⟩,
    by decide, by decide, decode_encode, encode_decode⟩ <;> decide

/-- C6 at two further inputs: the all-zero value, and the text of the nil
identifier's neighbour `00000000-0000-4000-8000-00000000000A`. -/
theorem identifier_text_round_trip_witness :
    decodeUuid (encodeUuid 0) = some 0
    ∧ (decodeUuid "00000000-0000-4000-8000-00000000000A").map encodeUuid
        = some "00000000-0000-4000-8000-00000000000A" :=
  ⟨identifier_text_round_trip.2.2.2.2.1 0 (by decide),
    identifier_text_round_trip.2.2.2.2.2 "00000000-0000-4000-8000-00000000000A"
      (by decide) (by decide)⟩

end ComTestLibrary
